import Mathlib

/-!
# Interviewer availability calendar: a shallow embedding

This file embeds the core logic of the interviewer-availability repository:
the interval slot engine (`handleSaveSlot`, `handleDeleteSlot` in
`src/App.tsx`), the display decomposition engine (`splitSlotsForDisplay`),
and the key-indexed backing-store adapter of the Express server
(`findRowIndexById`, the delete loop of `DELETE /api/slots/:id`, and the
read cache of the `src/unnamed/part_001` server variant).

Conventions of the embedding:

* Clock times are modelled as minutes after midnight (`Nat`).  The source
  stores times as zero-padded `"HH:MM"` strings and compares them either
  lexicographically (in `handleDeleteSlot`) or after converting with
  `timeToMins` (in `handleSaveSlot`); on canonical zero-padded `"HH:MM"`
  strings lexicographic order coincides with the numeric order of the
  minute values, so both comparisons are modelled by `Nat` comparisons.
  A `"HH:MM"` string accepted by `parse(_, 'HH:mm', _)` always denotes a
  minute value `< 1440`.
* `generateUUID` / `crypto.randomUUID` results are passed in as explicit
  `String` parameters (one per call site), since the logic only ever uses
  them as opaque fresh identifiers.
* Optional/absent values (an omitted field of the partial slot record, an
  empty-string target argument) are modelled with `Option`.
* Asynchronous persistence calls and React state setters are irrelevant to
  the claims about the produced slot collections; the embedding returns
  the new collection that the state setter installs.
-/

/-- `AvailabilitySlot` (`src/types` as used by `src/App.tsx`): the stored
unit of availability.  Times are minutes after midnight. -/
structure AvailabilitySlot where
  id : String
  interviewerId : String
  date : String
  startTime : Nat
  endTime : Nat
  isBooked : Bool
deriving Repr, DecidableEq

/-- The partial slot record the editor modal passes to `handleSaveSlot`
(`slotData : Partial<AvailabilitySlot>`).  `none` models an absent field. -/
structure SlotData where
  id : Option String
  date : Option String
  startTime : Option Nat
  endTime : Option Nat
  isBooked : Bool
deriving Repr, DecidableEq

/-- `{ ...existingSlot, ...slotData, isBooked: !!slotData.isBooked,
interviewerId: inv.id }` — the object-spread update the source applies both
in the split branch (`updatedMainSlot`) and in the normal-update branch
(`updatedSlot`) of `handleSaveSlot` (src/App.tsx 405-410, 434-439). -/
def applySlotData (s : AvailabilitySlot) (d : SlotData) (invId : String) :
    AvailabilitySlot :=
  { s with
    date := d.date.getD s.date
    startTime := d.startTime.getD s.startTime
    endTime := d.endTime.getD s.endTime
    isBooked := d.isBooked
    interviewerId := invId }

/-- The slots produced by the split branch of `handleSaveSlot`
(src/App.tsx 375-410): the updated main slot followed by the head and tail
remainder slots.  `idHead`/`idTail` are the `generateUUID()` results of the
two remainder constructions.  The source forces `originalStatus = false`
("Force remainders to be Available for now to solve the Both Booked
issue"), so both remainders get `isBooked := false`. -/
def splitParts (existingSlot : AvailabilitySlot) (slotData : SlotData)
    (invId idHead idTail : String) : List AvailabilitySlot :=
  let oldStart := existingSlot.startTime
  let oldEnd := existingSlot.endTime
  let newStart := slotData.startTime.getD oldStart
  let newEnd := slotData.endTime.getD oldEnd
  let originalStatus := false
  let headRem :=
    if oldStart < newStart then
      [{ existingSlot with
          id := idHead
          startTime := existingSlot.startTime
          endTime := newStart
          isBooked := originalStatus
          interviewerId := invId }]
    else []
  let tailRem :=
    if newEnd < oldEnd then
      [{ existingSlot with
          id := idTail
          startTime := newEnd
          endTime := existingSlot.endTime
          isBooked := originalStatus
          interviewerId := invId }]
    else []
  applySlotData existingSlot slotData invId :: (headRem ++ tailRem)

/-- `handleSaveSlot` (src/App.tsx 337-476), restricted to its effect on
the slot collection.  The interviewer has already been resolved to `invId`
(found by case-insensitive name match or freshly created).  `idA`/`idB`
are the `generateUUID()` results (`idA` the head remainder or, in create
mode, the new slot's id; `idB` the tail remainder).

* Edit mode (`slotData.id` present, slot found): if the new range is
  contained in the old one and strictly smaller at one end, the split
  branch removes the old slot and installs the main part plus remainders;
  otherwise the normal-update branch maps the updated slot over the list.
* Create mode: appends a brand-new slot built from the request — there is
  no validation of `start < end` anywhere in the source.
-/
def handleSaveSlot (slots : List AvailabilitySlot) (slotData : SlotData)
    (invId idA idB : String) : List AvailabilitySlot :=
  match slotData.id with
  | some sid =>
    match slots.find? (fun s => s.id == sid) with
    | none => slots
    | some existingSlot =>
      let oldStart := existingSlot.startTime
      let oldEnd := existingSlot.endTime
      let newStart := slotData.startTime.getD oldStart
      let newEnd := slotData.endTime.getD oldEnd
      if oldStart ≤ newStart ∧ newEnd ≤ oldEnd ∧
          (oldStart < newStart ∨ newEnd < oldEnd) then
        slots.filter (fun s => s.id != sid) ++
          splitParts existingSlot slotData invId idA idB
      else
        slots.map (fun s =>
          if s.id == sid then applySlotData existingSlot slotData invId else s)
  | none =>
    slots ++
      [{ id := idA
         interviewerId := invId
         date := slotData.date.getD ""
         startTime := slotData.startTime.getD 0
         endTime := slotData.endTime.getD 0
         isBooked := slotData.isBooked }]

/-- What `handleDeleteSlot` leaves behind: the new slot collection and
what, if anything, it surfaces to the caller.  The source function returns
`void` and its unmatched-target case has no body at all (src/App.tsx
478-538 ends after the four `else if` branches with no final `else`), so
`report` is `none` in every branch: no precondition failure is ever
reported. -/
structure DeleteResult where
  slots : List AvailabilitySlot
  report : Option String
deriving Repr, DecidableEq

/-- `handleDeleteSlot(id, targetStart, targetEnd)` (src/App.tsx 478-538).
`none` for a target argument models the empty string (the "no target"
fallback `(!targetStart && !targetEnd)`).  The source compares the
`"HH:MM"` strings directly; on canonical times that is minute-value
comparison.  The empty string compares lexicographically below every
canonical time and equals none of them, which fixes the branch conditions
at `none`; a branch that would store an absent target into a slot (the
source would store `""`) stores the degenerate minute value `0` here
(`Option.getD 0`) — the claims never reach that corner.  Branches, in
source order: full delete (exact match or both targets missing), trim
head, trim tail, split-delete, and otherwise a silent fall-through that
changes nothing. -/
def handleDeleteSlot (slots : List AvailabilitySlot) (id : String)
    (targetStart targetEnd : Option Nat) (freshId : String) : DeleteResult :=
  match slots.find? (fun s => s.id == id) with
  | none => { slots := slots, report := none }
  | some parentSlot =>
    let pStart := parentSlot.startTime
    let pEnd := parentSlot.endTime
    if (targetStart = none ∧ targetEnd = none) ∨
        (targetStart = some pStart ∧ targetEnd = some pEnd) then
      { slots := slots.filter (fun s => s.id != id), report := none }
    else if targetStart = some pStart ∧
        (∀ te ∈ targetEnd, te < pEnd) then
      let updatedSlot := { parentSlot with startTime := targetEnd.getD 0 }
      { slots := slots.map (fun s => if s.id == id then updatedSlot else s)
        report := none }
    else if targetEnd = some pEnd ∧
        (∃ ts ∈ targetStart, pStart < ts) then
      let updatedSlot := { parentSlot with endTime := targetStart.getD 0 }
      { slots := slots.map (fun s => if s.id == id then updatedSlot else s)
        report := none }
    else if (∃ ts ∈ targetStart, pStart < ts) ∧
        (∃ te ∈ targetEnd, te < pEnd) then
      let updatedPart1 := { parentSlot with endTime := targetStart.getD 0 }
      let newPart2 := { parentSlot with
        id := freshId
        startTime := targetEnd.getD 0
        endTime := pEnd }
      { slots :=
          (slots.map (fun s => if s.id == id then updatedPart1 else s)) ++
            [newPart2]
        report := none }
    else
      { slots := slots, report := none }

/-- Two slots overlap when they belong to the same owner and date and
their half-open time ranges `[start, end)` share a point. -/
def overlaps (a b : AvailabilitySlot) : Prop :=
  a.interviewerId = b.interviewerId ∧ a.date = b.date ∧
    a.startTime < b.endTime ∧ b.startTime < a.endTime

instance (a b : AvailabilitySlot) : Decidable (overlaps a b) := by
  unfold overlaps; infer_instance

/-- The per-`(ownerId, date)` disjointness invariant of the spec: no two
slots of the collection overlap. -/
def pairwiseDisjoint (slots : List AvailabilitySlot) : Prop :=
  slots.Pairwise (fun a b => ¬ overlaps a b)

instance (slots : List AvailabilitySlot) : Decidable (pairwiseDisjoint slots) := by
  unfold pairwiseDisjoint; infer_instance

/-! ## Display decomposition engine (`splitSlotsForDisplay`, src/App.tsx 632-673) -/

/-- A day slot as fed to `splitSlotsForDisplay`: times are the raw
`"HH:MM"` strings, which may be missing/empty or fail to parse.  `none`
models "missing, or `parse(_, 'HH:mm', _)` is invalid"; `some m` models a
string parsing to minute value `m` (necessarily `m < 1440`). -/
structure RawSlot where
  id : String
  interviewerId : String
  date : String
  startTime : Option Nat
  endTime : Option Nat
  isBooked : Bool
deriving Repr, DecidableEq

/-- An element of the display list: either a raw slot pushed unchanged by
one of the guards / the single-unit fallback (`originalId = none`,
matching the `undefined` field of the source object), or a 30-minute
atomic unit carrying `originalId = some` of the source slot's id and a
derived rendering key as its `id`. -/
structure DisplaySlot where
  id : String
  originalId : Option String
  interviewerId : String
  date : String
  startTime : Option Nat
  endTime : Option Nat
  isBooked : Bool
deriving Repr, DecidableEq

/-- Two-digit zero padding, as in `format(_, 'HH')` / `format(_, 'mm')`. -/
def pad2 (n : Nat) : String :=
  if n < 10 then "0" ++ toString n else toString n

/-- `format(current, 'HHmm')` on the minute value `m`. -/
def fmtHHmm (m : Nat) : String :=
  pad2 (m / 60) ++ pad2 (m % 60)

/-- The unit rendering key `` `${slot.id}__${format(current, 'HHmm')}` ``. -/
def unitKey (slotId : String) (current : Nat) : String :=
  slotId ++ "__" ++ fmtHHmm current

/-- The atomic display unit pushed by the stepping loop for the 30-minute
slice starting at `current` (src/App.tsx 659-665). -/
def mkUnit (slot : RawSlot) (current : Nat) : DisplaySlot :=
  { id := unitKey slot.id current
    originalId := some slot.id
    interviewerId := slot.interviewerId
    date := slot.date
    startTime := some current
    endTime := some (current + 30)
    isBooked := slot.isBooked }

/-- A slot pushed into the display list unchanged (guards and fallback:
`result.push(slot)`). -/
def rawDisplaySlot (slot : RawSlot) : DisplaySlot :=
  { id := slot.id
    originalId := none
    interviewerId := slot.interviewerId
    date := slot.date
    startTime := slot.startTime
    endTime := slot.endTime
    isBooked := slot.isBooked }

/-- The stepping loop of `splitSlotsForDisplay` (src/App.tsx 654-668):
`while (current < endTime && safety < 50) { next = current + 30;
if (next > endTime) break; push unit; current = next; safety++ }`.
Returns the list of units the loop pushes. -/
def splitLoop (slot : RawSlot) (e : Nat) (current safety : Nat) :
    List DisplaySlot :=
  if h : current < e ∧ safety < 50 then
    let next := current + 30
    if e < next then []
    else mkUnit slot current :: splitLoop slot e next (safety + 1)
  else []
termination_by 50 - safety
decreasing_by omega

/-- One iteration of the `daySlots.forEach` body of `splitSlotsForDisplay`
over the accumulated day result list `result`: the missing-time and
invalid-parse guards and the `startTime >= endTime` guard push the slot
raw; otherwise the stepping loop appends its units and then the fallback
`if (result.length === 0) result.push(slot)` inspects the WHOLE day's
accumulated list, not just this slot's own units. -/
def processSlot (result : List DisplaySlot) (slot : RawSlot) :
    List DisplaySlot :=
  match slot.startTime, slot.endTime with
  | some s, some e =>
    if e ≤ s then result ++ [rawDisplaySlot slot]
    else
      let acc := result ++ splitLoop slot e s 0
      if acc.length = 0 then acc ++ [rawDisplaySlot slot] else acc
  | _, _ => result ++ [rawDisplaySlot slot]

/-- `splitSlotsForDisplay(daySlots)` (src/App.tsx 632-673). -/
def splitSlotsForDisplay (daySlots : List RawSlot) : List DisplaySlot :=
  daySlots.foldl processSlot []

/-- `slot.id.split('__')[0]` on the character list: everything before the
first occurrence of two consecutive underscores. -/
def beforeDunder : List Char → List Char
  | [] => []
  | '_' :: '_' :: _ => []
  | c :: rest => c :: beforeDunder rest

/-- The pure key-recovery operation of the click handler
(src/App.tsx 869): `slot.originalId || slot.id.split('__')[0]`. -/
def recoverSourceId (u : DisplaySlot) : String :=
  match u.originalId with
  | some i => i
  | none => String.mk (beforeDunder u.id.data)

/-! ## Backing store adapter (src/server.js, src/unnamed/part_001) -/

/-- A raw spreadsheet row: the list of its cell strings.  `cellAt` models
JavaScript's `row[i]` where an out-of-range access yields a falsy value
(modelled as the empty string; the claims only exercise present cells). -/
def cellAt (row : List String) (i : Nat) : String :=
  row.getD i ""

/-- The key test of `findRowIndexById` (src/server.js 48-59):
`String(row[0]).trim() === String(id).trim()`. -/
def keyMatches (row : List String) (id : String) : Bool :=
  (cellAt row 0).trim == id.trim

/-- `findRowIndexById(sheetName, id)` (src/server.js 48-59): linear scan
of the key column for the first matching row; `none` models the source's
`-1`. -/
def findRowIndexById (rows : List (List String)) (id : String) : Option Nat :=
  match rows with
  | [] => none
  | r :: rs =>
    if keyMatches r id then some 0
    else (findRowIndexById rs id).map (· + 1)

/-- A found index is a valid position of the table. -/
theorem findRowIndexById_lt_length (rows : List (List String)) (id : String)
    (i : Nat) (h : findRowIndexById rows id = some i) : i < rows.length := by
  induction rows generalizing i with
  | nil => simp [findRowIndexById] at h
  | cons r rs ih =>
    by_cases hk : keyMatches r id
    · simp [findRowIndexById, hk] at h
      simp
      omega
    · simp [findRowIndexById, hk] at h
      obtain ⟨j, hj, rfl⟩ := h
      have := ih j hj
      simp
      omega

/-- The delete loop of `DELETE /api/slots/:id` (src/server.js 202-239 and
src/unnamed/part_001 214-249): repeatedly find the first row whose key
matches and delete that single row, until no match remains. -/
def deleteSlotRows (rows : List (List String)) (id : String) :
    List (List String) :=
  match h : findRowIndexById rows id with
  | some i => deleteSlotRows (rows.eraseIdx i) id
  | none => rows
termination_by rows.length
decreasing_by
  have hlt : i < rows.length := findRowIndexById_lt_length rows id i h
  have := rows.length_eraseIdx_of_lt hlt
  omega

/-- The number of rows of the table whose key matches `id` under the
adapter's key test. -/
def countKey (rows : List (List String)) (id : String) : Nat :=
  rows.countP (fun r => keyMatches r id)

/-! ## Read cache of the `src/unnamed/part_001` server variant -/

/-- A slot object as produced by the `/api/data` row mapping
(src/unnamed/part_001 106-110): raw cell strings, `isBooked` from the
comparison `r[5] === 'true'`. -/
structure SlotRec where
  id : String
  interviewerId : String
  date : String
  startTime : String
  endTime : String
  isBooked : Bool
deriving Repr, DecidableEq

/-- An interviewer object of the `/api/data` payload. -/
structure InvRec where
  id : String
  name : String
  color : String
deriving Repr, DecidableEq

/-- A note object of the `/api/data` payload. -/
structure NoteRec where
  date : String
  content : String
  color : String
deriving Repr, DecidableEq

/-- The full `/api/data` response payload. -/
structure ApiData where
  slots : List SlotRec
  interviewers : List InvRec
  notes : List NoteRec
deriving Repr, DecidableEq

/-- The three tables of the spreadsheet backing store, as raw rows
(header row included, as in the `A:F` / `A:C` batch read). -/
structure BackingStore where
  slotsTab : List (List String)
  interviewersTab : List (List String)
  notesTab : List (List String)
deriving Repr, DecidableEq

/-- Row-to-object mapping of the `/api/data` route for slots. -/
def parseSlotRow (r : List String) : SlotRec :=
  { id := cellAt r 0
    interviewerId := cellAt r 1
    date := cellAt r 2
    startTime := cellAt r 3
    endTime := cellAt r 4
    isBooked := cellAt r 5 == "true" }

/-- Row-to-object mapping of the `/api/data` route for interviewers. -/
def parseInvRow (r : List String) : InvRec :=
  { id := cellAt r 0, name := cellAt r 1, color := cellAt r 2 }

/-- Row-to-object mapping of the `/api/data` route for notes. -/
def parseNoteRow (r : List String) : NoteRec :=
  { date := cellAt r 0, content := cellAt r 1, color := cellAt r 2 }

/-- The full-table read and row mapping of `GET /api/data`
(src/unnamed/part_001 96-124): drop the header row, map each row to an
object, and filter out rows with a falsy id/date (resp. id/name). -/
def parseApiData (st : BackingStore) : ApiData :=
  { slots := ((st.slotsTab.drop 1).map parseSlotRow).filter
      (fun s => s.id != "" && s.date != "")
    interviewers := ((st.interviewersTab.drop 1).map parseInvRow).filter
      (fun i => i.id != "" && i.name != "")
    notes := ((st.notesTab.drop 1).map parseNoteRow).filter
      (fun n => n.date != "") }

/-- `CACHE_TTL = 30 * 1000` milliseconds (src/unnamed/part_001 24). -/
def CACHE_TTL : Nat := 30 * 1000

/-- The module-level cache cell of src/unnamed/part_001 21-24:
`cachedData` and `lastCacheTime`. -/
structure ServerCache where
  cachedData : Option ApiData
  lastCacheTime : Nat
deriving Repr, DecidableEq

/-- `invalidateCache()` (src/unnamed/part_001 26-29): `cachedData = null;
lastCacheTime = 0`. -/
def invalidateCache (_c : ServerCache) : ServerCache :=
  { cachedData := none, lastCacheTime := 0 }

/-- The observable outcome of one `GET /api/data` call: the payload sent,
the cache state afterwards, and whether a store read (`batchGet`) was
issued. -/
structure ReadOutcome where
  data : ApiData
  cache : ServerCache
  storeRead : Bool
deriving Repr, DecidableEq

/-- `GET /api/data` of src/unnamed/part_001 86-135: serve the cached
payload if `cachedData && (now - lastCacheTime < CACHE_TTL)`, otherwise
read the store, update the cache and serve the fresh payload.  (JavaScript
`now - lastCacheTime` can only be negative if the clock jumps backwards,
in which case the comparison also succeeds; `Nat` truncated subtraction
matches that.) -/
def getApiData (c : ServerCache) (st : BackingStore) (now : Nat) :
    ReadOutcome :=
  match c.cachedData with
  | some d =>
    if now - c.lastCacheTime < CACHE_TTL then
      { data := d, cache := c, storeRead := false }
    else
      let result := parseApiData st
      { data := result
        cache := { cachedData := some result, lastCacheTime := now }
        storeRead := true }
  | none =>
    let result := parseApiData st
    { data := result
      cache := { cachedData := some result, lastCacheTime := now }
      storeRead := true }

/-- `findRowIndexByDate(sheetName, dateStr)` (src/unnamed/part_001 67-75):
first row whose key cell equals the date string (plain `===`, no trim). -/
def findRowIndexByDate (rows : List (List String)) (dateStr : String) :
    Option Nat :=
  match rows with
  | [] => none
  | r :: rs =>
    if cellAt r 0 == dateStr then some 0
    else (findRowIndexByDate rs dateStr).map (· + 1)

/-- Update-or-append at the position found by a key scan (the body of the
`PUT /api/slots/:id`, `POST /api/notes` and `POST /api/interviewers`
routes: if the scan misses, append the row; else overwrite the row at the
found position). -/
def upsertAt (rows : List (List String)) (found : Option Nat)
    (row : List String) : List (List String) :=
  match found with
  | none => rows ++ [row]
  | some i => rows.set i row

/-- Delete the single row at the found position, if any (the body of
`DELETE /api/notes/:date`, which unlike the slot delete does not loop). -/
def deleteAt (rows : List (List String)) (found : Option Nat) :
    List (List String) :=
  match found with
  | none => rows
  | some i => rows.eraseIdx i

/-- The seven mutating routes of src/unnamed/part_001: append a slot row,
append a batch of slot rows, update-or-append a slot row by id, delete
slot rows by id, upsert a note row by date, delete a note row by date,
and upsert an interviewer row by id. -/
inductive MutRoute where
  | postSlot (row : List String)
  | postSlotsBatch (rows : List (List String))
  | putSlot (id : String) (row : List String)
  | deleteSlot (id : String)
  | postNote (row : List String)
  | deleteNote (date : String)
  | postInterviewer (row : List String)
deriving Repr, DecidableEq

/-- The effect of one mutating route on the backing store. -/
def applyMutStore (st : BackingStore) : MutRoute → BackingStore
  | .postSlot row => { st with slotsTab := st.slotsTab ++ [row] }
  | .postSlotsBatch rows => { st with slotsTab := st.slotsTab ++ rows }
  | .putSlot id row =>
    { st with slotsTab :=
        upsertAt st.slotsTab (findRowIndexById st.slotsTab id) row }
  | .deleteSlot id => { st with slotsTab := deleteSlotRows st.slotsTab id }
  | .postNote row =>
    { st with notesTab :=
        upsertAt st.notesTab (findRowIndexByDate st.notesTab (cellAt row 0)) row }
  | .deleteNote date =>
    { st with notesTab :=
        deleteAt st.notesTab (findRowIndexByDate st.notesTab date) }
  | .postInterviewer row =>
    { st with interviewersTab :=
        upsertAt st.interviewersTab (findRowIndexById st.interviewersTab (cellAt row 0)) row }

/-- One mutating route of src/unnamed/part_001: every such route calls
`invalidateCache()` as its very first statement (lines 142, 161, 182, 215,
254, 285, 318), before and regardless of the store work. -/
def applyMutRoute (st : BackingStore) (c : ServerCache) (m : MutRoute) :
    BackingStore × ServerCache :=
  (applyMutStore st m, invalidateCache c)

/-! ## The `src/unnamed/part_000` split variant -/

/-- The split branch of `handleSaveSlot` in the older App variant
(src/unnamed/part_000 229-262): the remainder slots are built by
`{ ...existingSlot, id: crypto.randomUUID(), endTime/startTime: ... }` —
they inherit the existing slot's `isBooked` (and owner) unchanged, unlike
src/App.tsx which forces them to `false`.  Returns the updated main slot
followed by the remainders (`slotsToAdd`). -/
def part000SplitParts (existingSlot : AvailabilitySlot)
    (newStartTime newEndTime : Nat) (newBooked : Bool)
    (invId idHead idTail : String) : List AvailabilitySlot :=
  let oldStart := existingSlot.startTime
  let oldEnd := existingSlot.endTime
  let updatedMainSlot := { existingSlot with
    startTime := newStartTime
    endTime := newEndTime
    isBooked := newBooked
    interviewerId := invId }
  let headRem :=
    if oldStart < newStartTime then
      [{ existingSlot with id := idHead, endTime := newStartTime }]
    else []
  let tailRem :=
    if newEndTime < oldEnd then
      [{ existingSlot with id := idTail, startTime := newEndTime }]
    else []
  updatedMainSlot :: (headRem ++ tailRem)

/-! ## Fixtures for concrete witnesses and counterexamples -/

/-- A booked 09:00-12:00 slot of owner `X`. -/
def slotBookedA : AvailabilitySlot :=
  { id := "A", interviewerId := "X", date := "2025-03-01"
    startTime := 540, endTime := 720, isBooked := true }

/-- An available (unbooked) 09:00-12:00 slot of owner `X`. -/
def slotFreeA : AvailabilitySlot :=
  { id := "A", interviewerId := "X", date := "2025-03-01"
    startTime := 540, endTime := 720, isBooked := false }

/-! ## C3 — booked state of split remainders -/

/-- C3, counterexample.  Booking the sub-range 10:00-10:30 of the BOOKED
slot `slotBookedA` splits it; the claim says the head and tail remainders
carry the pre-mutation booked state (`true`), but the src/App.tsx engine
forces both remainders to `isBooked = false` (`const originalStatus =
false`): splitting a booked slot produces unbooked remainders. -/
theorem booked_split_remainders_unbooked :
    handleSaveSlot [slotBookedA]
        { id := some "A", date := some "2025-03-01", startTime := some 600,
          endTime := some 630, isBooked := true } "X" "H" "T" =
      [{ id := "A", interviewerId := "X", date := "2025-03-01",
         startTime := 600, endTime := 630, isBooked := true },
       { id := "H", interviewerId := "X", date := "2025-03-01",
         startTime := 540, endTime := 600, isBooked := false },
       { id := "T", interviewerId := "X", date := "2025-03-01",
         startTime := 630, endTime := 720, isBooked := false }] ∧
      slotBookedA.isBooked = true := by
  constructor
  · rfl
  · rfl

/-- C3, amended: in src/App.tsx every split remainder (the elements after
the main slot in `splitParts`) is unconditionally `isBooked = false`,
whatever the pre-mutation state was; the older src/unnamed/part_000
variant instead gives every remainder the pre-mutation `isBooked` of the
slot being edited. -/
theorem split_remainders_booked_state (ex : AvailabilitySlot) (d : SlotData)
    (invId idH idT : String) (s e : Nat) (b : Bool) :
    (∀ p ∈ (splitParts ex d invId idH idT).tail, p.isBooked = false) ∧
    (∀ p ∈ (part000SplitParts ex s e b invId idH idT).tail,
      p.isBooked = ex.isBooked) := by
  constructor
  · intro p hp
    simp only [splitParts] at hp
    rcases List.mem_append.mp hp with h | h <;>
      [skip; skip] <;>
      · split at h <;> simp_all
  · intro p hp
    simp only [part000SplitParts] at hp
    rcases List.mem_append.mp hp with h | h <;>
      · split at h <;> simp_all

/-- C3, witness for the amended theorem, instantiated at the concrete
head remainder of splitting the booked slot `slotBookedA` at 10:00-10:30:
unbooked in the src/App.tsx variant, pre-mutation state (booked) in the
part_000 variant. -/
theorem split_remainders_booked_state_witness :
    ({ id := "H", interviewerId := "X", date := "2025-03-01",
       startTime := 540, endTime := 600,
       isBooked := false } : AvailabilitySlot).isBooked = false ∧
    ({ id := "H", interviewerId := "X", date := "2025-03-01",
       startTime := 540, endTime := 600,
       isBooked := true } : AvailabilitySlot).isBooked = slotBookedA.isBooked :=
  ⟨(split_remainders_booked_state slotBookedA
      { id := some "A", date := some "2025-03-01", startTime := some 600,
        endTime := some 630, isBooked := true } "X" "H" "T" 600 630 true).1
      _ (by decide),
   (split_remainders_booked_state slotBookedA
      { id := some "A", date := some "2025-03-01", startTime := some 600,
        endTime := some 630, isBooked := true } "X" "H" "T" 600 630 true).2
      _ (by decide)⟩

/-! ## C7 — no validation of `start < end` on create -/

/-- C7, counterexample.  The claim says a create request with
`start ≥ end` is rejected with a typed `InvalidRangeError` and leaves the
slot set unchanged.  In the source there is no range validation at all:
creating a 10:00-09:00 slot on the empty collection appends a slot with
exactly those inverted bounds and reports nothing. -/
theorem create_inverted_range_is_accepted :
    handleSaveSlot []
        { id := none, date := some "2025-03-01", startTime := some 600,
          endTime := some 540, isBooked := false } "X" "N" "M" =
      [{ id := "N", interviewerId := "X", date := "2025-03-01",
         startTime := 600, endTime := 540, isBooked := false }] := by
  rfl

/-- C7, amended: the engine performs no range validation.  A create
request with `start ≥ end` appends a slot carrying exactly the requested
bounds (they are never swapped) to the collection; no error value exists
anywhere on this path. -/
theorem create_no_range_validation (slots : List AvailabilitySlot)
    (date : String) (s e : Nat) (b : Bool) (invId idA idB : String)
    (hrange : e ≤ s) :
    handleSaveSlot slots
        { id := none, date := some date, startTime := some s,
          endTime := some e, isBooked := b } invId idA idB =
      slots ++ [{ id := idA, interviewerId := invId, date := date,
                  startTime := s, endTime := e, isBooked := b }] := by
  rfl

/-- C7, witness: the amended theorem applied to the inverted 10:00-09:00
request on the empty collection. -/
theorem create_no_range_validation_witness :
    handleSaveSlot []
        { id := none, date := some "2025-03-01", startTime := some 600,
          endTime := some 540, isBooked := false } "X" "N" "M" =
      [] ++ [{ id := "N", interviewerId := "X", date := "2025-03-01",
               startTime := 600, endTime := 540, isBooked := false }] :=
  create_no_range_validation [] "2025-03-01" 600 540 false "X" "N" "M"
    (by decide)

/-! ## C4 — the four delete cases and the silent fall-through -/

/-- C4, counterexample.  For a target not contained in the parent
(08:20-13:20 against the 09:00-12:00 slot), the claim says the engine
"reports a precondition failure to the caller"; the source's delete
handler has no `else` branch and no error channel at all, so nothing is
reported: the call is an entirely silent no-op. -/
theorem delete_noncontained_reports_nothing :
    handleDeleteSlot [slotFreeA] "A" (some 500) (some 800) "F" =
      { slots := [slotFreeA], report := none } := by
  rfl

/-- C4, amended: with `[pStart,pEnd]` the parent slot's range, an
exact-match target (or no target at all) removes the slot entirely;
`targetStart = pStart`, `targetEnd < pEnd` shrinks the surviving slot to
start at `targetEnd` (same id); `targetEnd = pEnd`, `targetStart > pStart`
shrinks it to end at `targetStart` (same id, no new slot); a strictly
interior target updates the slot to `[pStart,targetStart)` and appends
exactly one new slot `[targetEnd,pEnd)` with a fresh id and the parent's
owner and booked state; any other relation (target not contained in the
parent) leaves the slot set unchanged — silently: nothing is reported to
the caller (the source has no error path here). -/
theorem handleDeleteSlot_cases (slots : List AvailabilitySlot) (id : String)
    (ts te : Nat) (fid : String) (parent : AvailabilitySlot)
    (hfind : slots.find? (fun s => s.id == id) = some parent) :
    (handleDeleteSlot slots id none none fid =
      { slots := slots.filter (fun s => s.id != id), report := none }) ∧
    (ts = parent.startTime → te = parent.endTime →
      handleDeleteSlot slots id (some ts) (some te) fid =
        { slots := slots.filter (fun s => s.id != id), report := none }) ∧
    (ts = parent.startTime → te < parent.endTime →
      handleDeleteSlot slots id (some ts) (some te) fid =
        { slots := slots.map (fun s =>
            if s.id == id then { parent with startTime := te } else s)
          report := none }) ∧
    (te = parent.endTime → parent.startTime < ts →
      handleDeleteSlot slots id (some ts) (some te) fid =
        { slots := slots.map (fun s =>
            if s.id == id then { parent with endTime := ts } else s)
          report := none }) ∧
    (parent.startTime < ts → te < parent.endTime →
      handleDeleteSlot slots id (some ts) (some te) fid =
        { slots := (slots.map (fun s =>
            if s.id == id then { parent with endTime := ts } else s)) ++
              [{ parent with id := fid, startTime := te, endTime := parent.endTime }]
          report := none }) ∧
    (¬ (parent.startTime ≤ ts ∧ te ≤ parent.endTime) →
      handleDeleteSlot slots id (some ts) (some te) fid =
        { slots := slots, report := none }) := by
  refine ⟨?_, ?_, ?_, ?_, ?_, ?_⟩
  · simp [handleDeleteSlot, hfind]
  · intro h1 h2
    subst h1; subst h2
    simp [handleDeleteSlot, hfind]
  · intro h1 h2
    subst h1
    have hne : te ≠ parent.endTime := Nat.ne_of_lt h2
    simp [handleDeleteSlot, hfind, hne, h2]
  · intro h1 h2
    subst h1
    have hne : ts ≠ parent.startTime := Nat.ne_of_gt h2
    simp [handleDeleteSlot, hfind, hne, h2]
  · intro h1 h2
    have hne1 : ts ≠ parent.startTime := Nat.ne_of_gt h1
    have hne2 : te ≠ parent.endTime := Nat.ne_of_lt h2
    simp [handleDeleteSlot, hfind, hne1, hne2, h1, h2]
  · intro h
    have hsplit : ts < parent.startTime ∨ parent.endTime < te := by omega
    simp only [handleDeleteSlot, hfind]
    rcases hsplit with h' | h'
    · have e1 : ts ≠ parent.startTime := by omega
      have e2 : ¬ parent.startTime < ts := by omega
      simp [e1, e2]
    · have e1 : te ≠ parent.endTime := by omega
      have e2 : ¬ te < parent.endTime := by omega
      simp [e1, e2]

/-- C4, witness: the trim-tail case applied concretely — deleting
10:00-12:00 from the 09:00-12:00 slot shrinks it to end at 10:00, keeping
its id and creating no new slot. -/
theorem handleDeleteSlot_cases_witness :
    handleDeleteSlot [slotFreeA] "A" (some 600) (some 720) "F" =
      { slots := [slotFreeA].map (fun s =>
          if s.id == "A" then { slotFreeA with endTime := 600 } else s)
        report := none } :=
  (handleDeleteSlot_cases [slotFreeA] "A" 600 720 "F" slotFreeA
    (by rfl)).2.2.2.1 (by rfl) (by decide)

/-! ## C6 — the key-delete loop removes every duplicate and is idempotent -/

/-- `findRowIndexById` misses exactly when no row of the table matches
the key. -/
theorem findRowIndexById_eq_none_iff (rows : List (List String))
    (id : String) :
    findRowIndexById rows id = none ↔
      ∀ r ∈ rows, keyMatches r id = false := by
  induction rows with
  | nil => simp [findRowIndexById]
  | cons r rs ih =>
    by_cases hk : keyMatches r id
    · simp [findRowIndexById, hk]
    · simp [findRowIndexById, hk, ih]

/-- After the delete loop finishes, the scan no longer finds the key
(auxiliary form with an explicit bound on the table length). -/
theorem deleteSlotRows_find_none_aux (n : Nat) :
    ∀ (rows : List (List String)) (id : String), rows.length ≤ n →
      findRowIndexById (deleteSlotRows rows id) id = none := by
  induction n with
  | zero =>
    intro rows id hle
    have hrows : rows = [] := List.eq_nil_of_length_eq_zero (by omega)
    subst hrows
    unfold deleteSlotRows
    split
    · rename_i i hfound
      simp [findRowIndexById] at hfound
    · rename_i hnone
      exact hnone
  | succ n ih =>
    intro rows id hle
    unfold deleteSlotRows
    split
    · rename_i i hfound
      have hlt : i < rows.length := findRowIndexById_lt_length rows id i hfound
      refine ih (rows.eraseIdx i) id ?_
      have := rows.length_eraseIdx_of_lt hlt
      omega
    · rename_i hnone
      exact hnone

/-- After the delete loop finishes, the scan no longer finds the key. -/
theorem deleteSlotRows_find_none (rows : List (List String)) (id : String) :
    findRowIndexById (deleteSlotRows rows id) id = none :=
  deleteSlotRows_find_none_aux rows.length rows id le_rfl

/-- If the scan already misses, the delete loop is the identity. -/
theorem deleteSlotRows_eq_self_of_none (rows : List (List String))
    (id : String) (h : findRowIndexById rows id = none) :
    deleteSlotRows rows id = rows := by
  rw [deleteSlotRows]
  split
  · rename_i i hfound
    rw [h] at hfound
    exact absurd hfound (by simp)
  · rfl

/-- C6, confirmed.  One call to the slot-delete loop leaves zero rows
whose key matches — even when the table holds several duplicate rows for
that key — and a second call for the same key changes nothing: two
consecutive calls leave exactly the state of one call. -/
theorem deleteSlotRows_removes_all_and_idempotent
    (rows : List (List String)) (id : String) :
    countKey (deleteSlotRows rows id) id = 0 ∧
      deleteSlotRows (deleteSlotRows rows id) id = deleteSlotRows rows id := by
  have hnone := deleteSlotRows_find_none rows id
  constructor
  · have hall := (findRowIndexById_eq_none_iff _ id).mp hnone
    unfold countKey
    rw [List.countP_eq_zero]
    intro r hr
    simp [hall r hr]
  · exact deleteSlotRows_eq_self_of_none _ id hnone

/-! ## Stepping-loop lemmas for the display decomposition -/

/-- If even the first 30-minute boundary would overshoot the end, the
loop emits nothing (the `break` on the first iteration, or no iteration
at all). -/
theorem splitLoop_eq_nil_of_short (slot : RawSlot) (e current safety : Nat)
    (h : e < current + 30) : splitLoop slot e current safety = [] := by
  unfold splitLoop
  split
  · simp [h]
  · rfl

/-- Closed form of the stepping loop while the safety cap cannot bind:
from `current`, it emits one 30-minute unit per full step that fits before
`e`, in chronological order. -/
theorem splitLoop_eq_range_aux (slot : RawSlot) (e : Nat) (n : Nat) :
    ∀ current safety, (e - current) / 30 ≤ n → n + safety ≤ 50 →
      splitLoop slot e current safety =
        (List.range ((e - current) / 30)).map
          (fun i => mkUnit slot (current + 30 * i)) := by
  induction n with
  | zero =>
    intro current safety h1 _h2
    have he : e < current + 30 := by omega
    rw [splitLoop_eq_nil_of_short slot e current safety he]
    have h0 : (e - current) / 30 = 0 := by omega
    rw [h0]
    simp
  | succ n ih =>
    intro current safety h1 h2
    by_cases hnext : e < current + 30
    · rw [splitLoop_eq_nil_of_short slot e current safety hnext]
      have h0 : (e - current) / 30 = 0 := by omega
      rw [h0]
      simp
    · have hce : current < e := by omega
      have hsafe : safety < 50 := by omega
      unfold splitLoop
      rw [dif_pos ⟨hce, hsafe⟩]
      simp only [hnext, if_false]
      rw [ih (current + 30) (safety + 1) (by omega) (by omega)]
      have hk : (e - current) / 30 = (e - (current + 30)) / 30 + 1 := by
        omega
      rw [hk, List.range_succ_eq_map]
      simp only [List.map_cons, List.map_map, Nat.mul_zero, Nat.add_zero]
      have hfun : (fun i => mkUnit slot (current + 30 + 30 * i)) =
          ((fun i => mkUnit slot (current + 30 * i)) ∘ Nat.succ) := by
        funext i
        simp only [Function.comp_apply]
        congr 1
        omega
      rw [hfun]

/-- For an end time that parses as a valid clock time (`e < 1440`), the
safety cap of 50 iterations can never bind (at most 47 units fit in a
day), and the loop started at `s` with `safety = 0` has the closed form. -/
theorem splitLoop_closed_form (slot : RawSlot) (s e : Nat) (hv : e < 1440) :
    splitLoop slot e s 0 =
      (List.range ((e - s) / 30)).map (fun i => mkUnit slot (s + 30 * i)) :=
  splitLoop_eq_range_aux slot e 50 s 0 (by omega) (by omega)

/-- A 09:00-09:20 slot: valid times, but shorter than one 30-minute step. -/
def slotTiny : RawSlot :=
  { id := "D", interviewerId := "X", date := "2025-03-01"
    startTime := some 540, endTime := some 560, isBooked := false }

/-- A 09:00-10:30 slot: decomposes into exactly three 30-minute units. -/
def slotC : RawSlot :=
  { id := "C", interviewerId := "X", date := "2025-03-01"
    startTime := some 540, endTime := some 630, isBooked := false }

/-! ## C5 — decomposition into `floor(duration / STEP)` units -/

/-- C5, counterexample.  The claim says decomposing a valid slot yields
exactly `floor((end-start)/STEP)` units, so the 20-minute slot `slotTiny`
should yield `floor(20/30) = 0` units.  Instead, as the only slot of its
day it is emitted once, unchanged (20 minutes long, not `STEP` long), by
the single-unit fallback. -/
theorem decomposition_emits_short_slot :
    splitSlotsForDisplay [slotTiny] = [rawDisplaySlot slotTiny] ∧
      (560 - 540) / 30 = 0 := by
  constructor
  · show processSlot [] slotTiny = [rawDisplaySlot slotTiny]
    simp only [processSlot, slotTiny]
    rw [if_neg (by omega)]
    rw [splitLoop_eq_nil_of_short _ _ _ _ (by omega)]
    simp [slotTiny]
  · rfl

/-- C5, amended: for a slot with valid times and a duration of at least
one step (`start + STEP ≤ end`, `STEP = 30`), the stepping loop emits
exactly `floor((end-start)/STEP)` units — unit `i` covering
`[start + STEP*i, start + STEP*(i+1))`, so each unit is exactly `STEP`
minutes long and the units are chronological from `start` — and the
slot's whole contribution to the day list is exactly these units appended
to the accumulated result (the trailing sub-step remainder is dropped,
never emitted).  Slots shorter than one step can instead surface whole
through the single-unit fallback. -/
theorem decomposition_floor_units (slot : RawSlot) (s e : Nat)
    (hs : slot.startTime = some s) (he : slot.endTime = some e)
    (hv : e < 1440) (hstep : s + 30 ≤ e) :
    splitLoop slot e s 0 =
      (List.range ((e - s) / 30)).map (fun i => mkUnit slot (s + 30 * i)) ∧
    (splitLoop slot e s 0).length = (e - s) / 30 ∧
    (∀ acc, processSlot acc slot = acc ++ splitLoop slot e s 0) := by
  have hcf := splitLoop_closed_form slot s e hv
  have hlen : (splitLoop slot e s 0).length = (e - s) / 30 := by
    rw [hcf]
    simp
  refine ⟨hcf, hlen, ?_⟩
  intro acc
  simp only [processSlot, hs, he]
  rw [if_neg (by omega)]
  have hpos : (acc ++ splitLoop slot e s 0).length ≠ 0 := by
    rw [List.length_append, hlen]
    have : 1 ≤ (e - s) / 30 := by omega
    omega
  simp [hpos]
  intro _ hcontra
  rw [hcontra] at hlen
  simp at hlen
  omega

/-- C5, witness: the 09:00-10:30 slot `slotC` decomposes into exactly
`floor(90/30) = 3` step units appended to any prior day output. -/
theorem decomposition_floor_units_witness :
    splitLoop slotC 630 540 0 =
      (List.range ((630 - 540) / 30)).map (fun i => mkUnit slotC (540 + 30 * i)) ∧
    (splitLoop slotC 630 540 0).length = (630 - 540) / 30 ∧
    (∀ acc, processSlot acc slotC = acc ++ splitLoop slotC 630 540 0) :=
  decomposition_floor_units slotC 540 630 rfl rfl (by omega) (by omega)

/-! ## C10 — the single-unit fallback looks at the whole day's output -/

/-- C10, confirmed.  A slot with valid times and `0 < duration < 30` adds
no step units; it is then emitted unchanged as a single unit exactly when
the day's accumulated result list is still empty (`result.length === 0`
checks the WHOLE day's list), and otherwise contributes nothing at all —
appended after any day prefix that produced output, it vanishes from the
rendered day. -/
theorem fallback_inspects_day_accumulator (slot : RawSlot) (s e : Nat)
    (hs : slot.startTime = some s) (he : slot.endTime = some e)
    (hlt : s < e) (hshort : e - s < 30) :
    (∀ acc, acc ≠ [] → processSlot acc slot = acc) ∧
    processSlot [] slot = [rawDisplaySlot slot] ∧
    (∀ daySlots, splitSlotsForDisplay daySlots ≠ [] →
      splitSlotsForDisplay (daySlots ++ [slot]) =
        splitSlotsForDisplay daySlots) := by
  have hnil : splitLoop slot e s 0 = [] :=
    splitLoop_eq_nil_of_short slot e s 0 (by omega)
  have hps : ∀ acc : List DisplaySlot,
      processSlot acc slot =
        if acc.length = 0 then [rawDisplaySlot slot] else acc := by
    intro acc
    simp only [processSlot, hs, he]
    rw [if_neg (by omega), hnil]
    by_cases hacc : acc = [] <;> simp [hacc]
  refine ⟨?_, ?_, ?_⟩
  · intro acc hne
    rw [hps]
    rw [if_neg (by simpa using hne)]
  · rw [hps]
    simp
  · intro daySlots hne
    unfold splitSlotsForDisplay at hne ⊢
    rw [List.foldl_append]
    simp only [List.foldl_cons, List.foldl_nil]
    rw [hps]
    rw [if_neg (by simpa using hne)]

/-- C10, witness: the 20-minute slot `slotTiny` is emitted whole as the
first slot of an empty day, and contributes nothing when some earlier
slot already produced output. -/
theorem fallback_inspects_day_accumulator_witness :
    processSlot [] slotTiny = [rawDisplaySlot slotTiny] ∧
    processSlot [rawDisplaySlot slotC] slotTiny = [rawDisplaySlot slotC] :=
  ⟨(fallback_inspects_day_accumulator slotTiny 540 560 rfl rfl (by omega)
      (by omega)).2.1,
   (fallback_inspects_day_accumulator slotTiny 540 560 rfl rfl (by omega)
      (by omega)).1 _ (by simp)⟩

/-! ## C8 — reversible unit identity -/

/-- Every element the stepping loop emits is an atomic unit `mkUnit slot t`
for some slice start `t` (auxiliary form with an explicit bound on the
remaining loop budget). -/
theorem splitLoop_mem_aux (slot : RawSlot) (e : Nat) (n : Nat) :
    ∀ current safety, 50 - safety ≤ n →
      ∀ u ∈ splitLoop slot e current safety, ∃ t, u = mkUnit slot t := by
  induction n with
  | zero =>
    intro current safety hb u hu
    unfold splitLoop at hu
    split at hu
    · rename_i hcond
      omega
    · simp at hu
  | succ n ih =>
    intro current safety hb u hu
    unfold splitLoop at hu
    split at hu
    · rename_i hcond
      by_cases hnext : e < current + 30
      · rw [if_pos hnext] at hu
        simp at hu
      · rw [if_neg hnext] at hu
        rcases List.mem_cons.mp hu with h | h
        · exact ⟨current, h⟩
        · exact ih (current + 30) (safety + 1) (by omega) u h
    · simp at hu

/-- C8, confirmed.  Every atomic display unit the loop produces from a
slot `X` carries the rendering key `X.id ++ "__" ++ HHmm(unit start)` —
deterministically derived from `X`'s id and the unit's start time — and
the pure recovery operation of the click handler
(`slot.originalId || slot.id.split('__')[0]`) returns `X`'s id exactly,
with no lookup in the slot collection. -/
theorem unit_key_reversible (slot : RawSlot) (e current safety : Nat)
    (u : DisplaySlot) (hu : u ∈ splitLoop slot e current safety) :
    (∃ t, u.startTime = some t ∧ u.id = unitKey slot.id t) ∧
      recoverSourceId u = slot.id := by
  obtain ⟨t, rfl⟩ := splitLoop_mem_aux slot e 50 current safety (by omega) u hu
  constructor
  · exact ⟨t, rfl, rfl⟩
  · rfl

/-- C8, witness: the first unit of decomposing the 09:00-10:30 slot
`slotC` has key `"C__0900"` and recovers id `"C"`. -/
theorem unit_key_reversible_witness :
    (∃ t, (mkUnit slotC 540).startTime = some t ∧
      (mkUnit slotC 540).id = unitKey slotC.id t) ∧
    recoverSourceId (mkUnit slotC 540) = slotC.id :=
  unit_key_reversible slotC 630 540 0 (mkUnit slotC 540)
    (by
      rw [splitLoop_closed_form slotC 540 630 (by omega)]
      simp
      exact ⟨0, by omega, by norm_num⟩)

/-! ## C9 — read cache: TTL window and unconditional invalidation -/

/-- A small concrete backing store (header rows plus one slot row and one
interviewer row). -/
def storeFix : BackingStore :=
  { slotsTab := [["ID", "InterviewerID", "Date", "Start", "End", "IsBooked"],
                 ["s1", "i1", "2025-03-01", "09:00", "10:00", "false"]]
    interviewersTab := [["ID", "Name", "Color"], ["i1", "Ann", "#fff"]]
    notesTab := [["Date", "Content", "Color"]] }

/-- C9, counterexample.  The claim says a read within the TTL window
(30 s) after a prior successful read is served from cache without a store
read.  Sequence: a read at `t = 0` fills the cache; a read at `t = 29999`
is a successful cache hit; a read at `t = 30000` — just 1 ms after that
prior successful read, well within its 30 s window — still issues a store
read, because the source anchors the window at `lastCacheTime` (the
cache-filling read), which a cache hit does not advance. -/
theorem read_within_ttl_of_cache_hit_hits_store :
    (getApiData (getApiData { cachedData := none, lastCacheTime := 0 }
        storeFix 0).cache storeFix 29999).storeRead = false ∧
    30000 - 29999 < CACHE_TTL ∧
    (getApiData (getApiData (getApiData { cachedData := none, lastCacheTime := 0 }
        storeFix 0).cache storeFix 29999).cache storeFix 30000).storeRead = true := by
  refine ⟨?_, ?_, ?_⟩
  · rfl
  · decide
  · rfl

/-- C9, amended: a read within the TTL window of the read that last
FILLED the cache (one that issued a store read) returns the identical
cached payload, leaves the cache untouched and issues no store read — a
read that was itself served from the cache does not extend the window;
and every one of the seven mutating routes invalidates the cache
unconditionally as its first statement, whatever table it touches, so any
later read finds an empty cache and issues a fresh store read. -/
theorem cache_ttl_and_invalidation :
    (∀ (c : ServerCache) (st : BackingStore) (t0 t1 : Nat),
      (getApiData c st t0).storeRead = true → t0 ≤ t1 →
      t1 - t0 < CACHE_TTL →
      getApiData (getApiData c st t0).cache st t1 =
        { data := (getApiData c st t0).data
          cache := (getApiData c st t0).cache
          storeRead := false }) ∧
    (∀ (st : BackingStore) (c : ServerCache) (m : MutRoute),
      (applyMutRoute st c m).2.cachedData = none ∧
      ∀ (st2 : BackingStore) (t : Nat),
        (getApiData (applyMutRoute st c m).2 st2 t).storeRead = true) := by
  constructor
  · intro c st t0 t1 h1 hle hwin
    cases hc : c.cachedData with
    | none =>
      simp only [getApiData, hc]
      simp [hwin]
    | some d =>
      by_cases hhit : t0 - c.lastCacheTime < CACHE_TTL
      · exfalso
        simp [getApiData, hc, hhit] at h1
      · simp only [getApiData, hc]
        rw [if_neg hhit]
        simp [hwin]
  · intro st c m
    constructor
    · rfl
    · intro st2 t
      rfl

/-- C9, witness: a cache-filling read at `t = 0` followed by a read at
`t = 100` is a pure cache hit; and a read issued right after the
slot-delete route (on a warm cache) hits the store. -/
theorem cache_ttl_and_invalidation_witness :
    (getApiData (getApiData { cachedData := none, lastCacheTime := 0 }
        storeFix 0).cache storeFix 100 =
      { data := (getApiData { cachedData := none, lastCacheTime := 0 }
          storeFix 0).data
        cache := (getApiData { cachedData := none, lastCacheTime := 0 }
          storeFix 0).cache
        storeRead := false }) ∧
    (getApiData (applyMutRoute storeFix
        { cachedData := some (parseApiData storeFix), lastCacheTime := 50 }
        (.deleteSlot "s1")).2 storeFix 60).storeRead = true :=
  ⟨cache_ttl_and_invalidation.1 { cachedData := none, lastCacheTime := 0 }
      storeFix 0 100 (by rfl) (by omega) (by decide),
   (cache_ttl_and_invalidation.2 storeFix
      { cachedData := some (parseApiData storeFix), lastCacheTime := 50 }
      (.deleteSlot "s1")).2 storeFix 60⟩

/-! ## C2 — split conservation -/

/-- C2, counterexample.  Resizing the 09:00-12:00 slot to the empty range
10:00-10:00 satisfies the claim's hypotheses (`S ≤ s`, `e ≤ E`, `s > S`),
and the split branch runs: the main slot survives as `[600, 600)` — a
present part with zero duration, violating "each present part has
positive duration".  (The source never validates `s < e`.) -/
theorem resize_to_empty_range_zero_duration_part :
    handleSaveSlot [slotFreeA]
        { id := some "A", date := some "2025-03-01", startTime := some 600,
          endTime := some 600, isBooked := true } "X" "H" "T" =
      [{ id := "A", interviewerId := "X", date := "2025-03-01",
         startTime := 600, endTime := 600, isBooked := true },
       { id := "H", interviewerId := "X", date := "2025-03-01",
         startTime := 540, endTime := 600, isBooked := false },
       { id := "T", interviewerId := "X", date := "2025-03-01",
         startTime := 600, endTime := 720, isBooked := false }] ∧
      ¬ (600 < 600) := by
  exact ⟨rfl, by omega⟩

/-- C2, amended: for a rebook/resize of `[S,E]` to a contained `[s,e]`
that is strictly smaller at one end AND non-degenerate (`s < e` — the
one condition the counterexample forces to be added), the split yields:
a main part under the original id covering `[s,e]`; a head remainder
`[S,s)` exactly when `S < s`; a tail remainder `[e,E)` exactly when
`e < E`; every present part has positive duration; the parts are pairwise
disjoint; and their union covers exactly `[S,E)` with no gaps.  In the
split branch, `handleSaveSlot` replaces the edited slot by exactly these
parts. -/
theorem splitParts_conservation (ex : AvailabilitySlot) (d : SlotData)
    (invId idH idT : String) (s e : Nat)
    (hds : d.startTime = some s) (hde : d.endTime = some e)
    (hS : ex.startTime ≤ s) (hE : e ≤ ex.endTime) (hse : s < e)
    (hstrict : ex.startTime < s ∨ e < ex.endTime)
    (hidH : idH ≠ ex.id) (hidT : idT ≠ ex.id) (hHT : idH ≠ idT) :
    (∃ main ∈ splitParts ex d invId idH idT,
        main.id = ex.id ∧ main.startTime = s ∧ main.endTime = e) ∧
    ((∃ p ∈ splitParts ex d invId idH idT,
        p.id = idH ∧ p.startTime = ex.startTime ∧ p.endTime = s) ↔
      ex.startTime < s) ∧
    ((∃ p ∈ splitParts ex d invId idH idT,
        p.id = idT ∧ p.startTime = e ∧ p.endTime = ex.endTime) ↔
      e < ex.endTime) ∧
    (∀ p ∈ splitParts ex d invId idH idT, p.startTime < p.endTime) ∧
    (splitParts ex d invId idH idT).Pairwise
      (fun a b => a.endTime ≤ b.startTime ∨ b.endTime ≤ a.startTime) ∧
    (∀ t : Nat, (ex.startTime ≤ t ∧ t < ex.endTime) ↔
      ∃ p ∈ splitParts ex d invId idH idT,
        p.startTime ≤ t ∧ t < p.endTime) ∧
    (∀ slots : List AvailabilitySlot,
      slots.find? (fun x => x.id == ex.id) = some ex →
      d.id = some ex.id →
      handleSaveSlot slots d invId idH idT =
        slots.filter (fun x => x.id != ex.id) ++
          splitParts ex d invId idH idT) := by
  have hH' : ex.id ≠ idH := Ne.symm hidH
  have hT' : ex.id ≠ idT := Ne.symm hidT
  have hHT' : idT ≠ idH := Ne.symm hHT
  refine ⟨?_, ?_, ?_, ?_, ?_, ?_, ?_⟩
  · refine ⟨applySlotData ex d invId, by simp [splitParts], ?_, ?_, ?_⟩ <;>
      simp [applySlotData, hds, hde]
  · by_cases hh : ex.startTime < s <;> by_cases ht : e < ex.endTime <;>
      simp [splitParts, applySlotData, hds, hde, hh, ht, hH', hT', hHT,
        hHT', hidH, hidT] <;>
      omega
  · by_cases hh : ex.startTime < s <;> by_cases ht : e < ex.endTime <;>
      simp [splitParts, applySlotData, hds, hde, hh, ht, hH', hT', hHT,
        hHT', hidH, hidT] <;>
      omega
  · intro p hp
    simp only [splitParts, applySlotData] at hp
    rcases List.mem_cons.mp hp with h | h
    · subst h
      simp [hds, hde]
      omega
    · rcases List.mem_append.mp h with h' | h' <;> split at h' <;>
        simp_all <;> omega
  · by_cases hh : ex.startTime < s <;> by_cases ht : e < ex.endTime <;>
      simp [splitParts, applySlotData, hds, hde, hh, ht,
        List.pairwise_cons] <;> omega
  · intro t
    by_cases hh : ex.startTime < s <;> by_cases ht : e < ex.endTime <;>
      simp [splitParts, applySlotData, hds, hde, hh, ht] <;> omega
  · intro slots hfind hdid
    have hcond : ex.startTime ≤ d.startTime.getD ex.startTime ∧
        d.endTime.getD ex.endTime ≤ ex.endTime ∧
        (ex.startTime < d.startTime.getD ex.startTime ∨
          d.endTime.getD ex.endTime < ex.endTime) := by
      rw [hds, hde]
      simpa using ⟨hS, hE, hstrict⟩
    simp only [handleSaveSlot, hdid, hfind, if_pos hcond]

/-- C2, witness: the conservation theorem applied to booking 10:00-10:30
inside the 09:00-12:00 slot, instantiated at the point `t = 540` of the
union-coverage conjunct. -/
theorem splitParts_conservation_witness :
    (slotFreeA.startTime ≤ 540 ∧ 540 < slotFreeA.endTime) ↔
      ∃ p ∈ splitParts slotFreeA
          { id := some "A", date := some "2025-03-01",
            startTime := some 600, endTime := some 630, isBooked := true }
          "X" "H" "T", p.startTime ≤ 540 ∧ 540 < p.endTime :=
  (splitParts_conservation slotFreeA
    { id := some "A", date := some "2025-03-01", startTime := some 600,
      endTime := some 630, isBooked := true } "X" "H" "T" 600 630
    rfl rfl (by decide) (by decide) (by decide) (Or.inl (by decide))
    (by decide) (by decide) (by decide)).2.2.2.2.2.1 540

/-! ## C1 — disjointness under engine operations -/

/-- Overlapping is symmetric. -/
theorem overlaps_symm {a b : AvailabilitySlot} (h : overlaps a b) :
    overlaps b a := by
  obtain ⟨h1, h2, h3, h4⟩ := h
  exact ⟨h1.symm, h2.symm, h4, h3⟩

/-- Non-overlapping is symmetric. -/
theorem not_overlaps_symm {a b : AvailabilitySlot} (h : ¬ overlaps a b) :
    ¬ overlaps b a := fun hov => h (overlaps_symm hov)

/-- `p` sits inside `parent`: same owner, same date, time range within
the parent's range. -/
def containedIn (p parent : AvailabilitySlot) : Prop :=
  p.interviewerId = parent.interviewerId ∧ p.date = parent.date ∧
    parent.startTime ≤ p.startTime ∧ p.endTime ≤ parent.endTime

/-- Whatever does not overlap a parent slot does not overlap anything
contained in it. -/
theorem not_overlaps_of_containedIn (o p parent : AvailabilitySlot)
    (hc : containedIn p parent) (h : ¬ overlaps o parent) :
    ¬ overlaps o p := by
  intro hov
  obtain ⟨hc1, hc2, hc3, hc4⟩ := hc
  obtain ⟨h1, h2, h3, h4⟩ := hov
  exact h ⟨h1.trans hc1, h2.trans hc2, by omega, by omega⟩

/-- With pairwise-distinct ids, the slot `find?` returns is the only
element carrying that id. -/
theorem eq_find_of_mem_id (slots : List AvailabilitySlot) (id : String)
    (parent a : AvailabilitySlot)
    (hfind : slots.find? (fun s => s.id == id) = some parent)
    (huniq : slots.Pairwise (fun x y => x.id ≠ y.id))
    (ha : a ∈ slots) (haid : a.id = id) : a = parent := by
  have hpmem : parent ∈ slots := List.mem_of_find?_eq_some hfind
  have hpid : parent.id = id := by
    have := List.find?_some hfind
    simpa using this
  by_contra hne
  have hsymm : Symmetric (fun x y : AvailabilitySlot => x.id ≠ y.id) :=
    fun x y h => Ne.symm h
  have := huniq.forall hsymm ha hpmem hne
  exact this (haid.trans hpid.symm)

/-- Replacing the (unique) slot with a given id by a slot that overlaps
no more than the original preserves pairwise disjointness. -/
theorem pairwiseDisjoint_map_replace (slots : List AvailabilitySlot)
    (id : String) (parent new : AvailabilitySlot)
    (hfind : slots.find? (fun s => s.id == id) = some parent)
    (huniq : slots.Pairwise (fun x y => x.id ≠ y.id))
    (hdisj : pairwiseDisjoint slots)
    (hmono : ∀ o, ¬ overlaps o parent → ¬ overlaps o new) :
    pairwiseDisjoint
      (slots.map (fun s => if s.id == id then new else s)) := by
  unfold pairwiseDisjoint at *
  rw [List.pairwise_map]
  have hcomb := List.Pairwise.and huniq hdisj
  refine hcomb.imp_of_mem ?_
  intro a b ha hb hab
  obtain ⟨hne, hno⟩ := hab
  by_cases haid : a.id = id
  · have hbid : ¬ b.id = id := fun hbid => hne (haid.trans hbid.symm)
    have haeq : a = parent := eq_find_of_mem_id slots id parent a hfind huniq ha haid
    rw [if_pos (by simp [haid]), if_neg (by simp [hbid])]
    subst haeq
    exact not_overlaps_symm (hmono b (not_overlaps_symm hno))
  · by_cases hbid : b.id = id
    · have hbeq : b = parent :=
        eq_find_of_mem_id slots id parent b hfind huniq hb hbid
      rw [if_neg (by simp [haid]), if_pos (by simp [hbid])]
      subst hbeq
      exact hmono a hno
    · rw [if_neg (by simp [haid]), if_neg (by simp [hbid])]
      exact hno

/-- Members surviving the id filter do not overlap the slot that was
found under that id. -/
theorem not_overlaps_find_of_mem_filter (slots : List AvailabilitySlot)
    (id : String) (parent o : AvailabilitySlot)
    (hfind : slots.find? (fun s => s.id == id) = some parent)
    (hdisj : pairwiseDisjoint slots)
    (ho : o ∈ slots.filter (fun s => s.id != id)) :
    ¬ overlaps o parent := by
  have homem : o ∈ slots := List.mem_of_mem_filter ho
  have hoid : o.id ≠ id := by
    have := List.of_mem_filter ho
    simpa using this
  have hpmem : parent ∈ slots := List.mem_of_find?_eq_some hfind
  have hpid : parent.id = id := by
    have := List.find?_some hfind
    simpa using this
  have hne : o ≠ parent := fun h => hoid (h ▸ hpid)
  have hsymm : Symmetric (fun x y : AvailabilitySlot => ¬ overlaps x y) :=
    fun x y h => not_overlaps_symm h
  exact hdisj.forall hsymm homem hpmem hne

/-- Any member with a different id does not overlap the slot found under
the given id. -/
theorem not_overlaps_find_of_ne_id (slots : List AvailabilitySlot)
    (id : String) (parent o : AvailabilitySlot)
    (hfind : slots.find? (fun s => s.id == id) = some parent)
    (hdisj : pairwiseDisjoint slots)
    (ho : o ∈ slots) (hoid : o.id ≠ id) : ¬ overlaps o parent := by
  have hpmem : parent ∈ slots := List.mem_of_find?_eq_some hfind
  have hpid : parent.id = id := by
    have := List.find?_some hfind
    simpa using this
  have hne : o ≠ parent := fun h => hoid (h ▸ hpid)
  have hsymm : Symmetric (fun x y : AvailabilitySlot => ¬ overlaps x y) :=
    fun x y h => not_overlaps_symm h
  exact hdisj.forall hsymm ho hpmem hne

/-- Every delete whose target is absent or a well-formed range
(`targetStart ≤ targetEnd`) preserves pairwise disjointness of the slot
collection. -/
theorem handleDeleteSlot_preserves_disjoint (slots : List AvailabilitySlot)
    (id : String) (ts te : Option Nat) (fid : String)
    (hdisj : pairwiseDisjoint slots)
    (huniq : slots.Pairwise (fun x y => x.id ≠ y.id))
    (hwf : (ts = none ∧ te = none) ∨
      ∃ a b, ts = some a ∧ te = some b ∧ a ≤ b) :
    pairwiseDisjoint (handleDeleteSlot slots id ts te fid).slots := by
  cases hfind : slots.find? (fun s => s.id == id) with
  | none => simpa [handleDeleteSlot, hfind] using hdisj
  | some parent =>
    rcases hwf with ⟨rfl, rfl⟩ | ⟨a, b, rfl, rfl, hab⟩
    · simp only [handleDeleteSlot, hfind]
      rw [if_pos (Or.inl (by simp))]
      exact hdisj.sublist (List.filter_sublist _)
    · by_cases hfull : a = parent.startTime ∧ b = parent.endTime
      · simp only [handleDeleteSlot, hfind]
        rw [if_pos (Or.inr (by simp [hfull.1, hfull.2]))]
        exact hdisj.sublist (List.filter_sublist _)
      · by_cases hth : a = parent.startTime ∧ b < parent.endTime
        · -- trim head: the slot survives as [b, pEnd)
          have hne2 : b ≠ parent.endTime := by omega
          simp only [handleDeleteSlot, hfind]
          rw [if_neg (by simp [hne2]), if_pos (by simp [hth.1, hth.2])]
          apply pairwiseDisjoint_map_replace slots id parent _ hfind huniq hdisj
          intro o hno
          refine not_overlaps_of_containedIn o _ parent ⟨rfl, rfl, ?_, ?_⟩ hno <;>
            simp <;> omega
        · by_cases htt : b = parent.endTime ∧ parent.startTime < a
          · -- trim tail: the slot survives as [pStart, a)
            have hne1 : a ≠ parent.startTime := by omega
            simp only [handleDeleteSlot, hfind]
            rw [if_neg (by simp [hne1]), if_neg (by simp [hne1]),
              if_pos (by simp [htt.1, htt.2])]
            apply pairwiseDisjoint_map_replace slots id parent _ hfind huniq
              hdisj
            intro o hno
            refine not_overlaps_of_containedIn o _ parent ⟨rfl, rfl, ?_, ?_⟩
              hno <;> simp <;> omega
          · by_cases hsp : parent.startTime < a ∧ b < parent.endTime
            · -- split delete: [pStart, a) survives, fresh [b, pEnd) appended
              have hne1 : a ≠ parent.startTime := by omega
              have hne2 : b ≠ parent.endTime := by omega
              simp only [handleDeleteSlot, hfind]
              rw [if_neg (by simp [hne2]), if_neg (by simp [hne1]),
                if_neg (by simp [hne2]), if_pos (by simp [hsp.1, hsp.2])]
              unfold pairwiseDisjoint
              rw [List.pairwise_append]
              refine ⟨?_, by simp, ?_⟩
              · refine pairwiseDisjoint_map_replace slots id parent _ hfind
                  huniq hdisj ?_
                intro o hno
                refine not_overlaps_of_containedIn o _ parent
                  ⟨rfl, rfl, ?_, ?_⟩ hno <;> simp <;> omega
              · intro x hx y hy
                simp only [List.mem_singleton] at hy
                subst hy
                obtain ⟨o, ho, rfl⟩ := List.mem_map.mp hx
                by_cases hoid : o.id = id
                · have hoeq : o = parent :=
                    eq_find_of_mem_id slots id parent o hfind huniq ho hoid
                  rw [if_pos (by simp [hoid])]
                  subst hoeq
                  intro hov
                  obtain ⟨_, _, h3', h4'⟩ := hov
                  simp at h3' h4'
                  omega
                · rw [if_neg (by simp [hoid])]
                  refine not_overlaps_of_containedIn o _ parent
                    ⟨rfl, rfl, ?_, ?_⟩
                    (not_overlaps_find_of_ne_id slots id parent o hfind hdisj
                      ho hoid) <;> simp <;> omega
            · -- no case matches: silent no-op
              simp only [handleDeleteSlot, hfind]
              rw [if_neg (by simp; omega), if_neg (by simp; omega),
                if_neg (by simp; omega), if_neg (by simp; omega)]
              exact hdisj

/-- Every part the split branch produces sits inside the edited slot
(assuming the edit keeps the owner and the date). -/
theorem splitParts_containedIn (ex : AvailabilitySlot) (d : SlotData)
    (invId idH idT : String) (s e : Nat)
    (hds : d.startTime = some s) (hde : d.endTime = some e)
    (hS : ex.startTime ≤ s) (hE : e ≤ ex.endTime) (hse : s ≤ e)
    (hinv : invId = ex.interviewerId)
    (hdate : d.date.getD ex.date = ex.date) :
    ∀ p ∈ splitParts ex d invId idH idT, containedIn p ex := by
  intro p hp
  simp only [splitParts] at hp
  rcases List.mem_cons.mp hp with rfl | h
  · exact ⟨by simp [applySlotData, hinv], by simp [applySlotData, hdate],
      by simp [applySlotData, hds]; omega, by simp [applySlotData, hde]; omega⟩
  · rcases List.mem_append.mp h with h' | h' <;> split at h' <;>
      first
        | exact absurd h' (List.not_mem_nil _)
        | (simp only [List.mem_singleton] at h'
           subst h'
           refine ⟨by simp [hinv], by simp, ?_, ?_⟩ <;>
             simp [hds, hde] <;> omega)

/-- The parts of a non-inverted split (`s ≤ e`) are mutually
non-overlapping. -/
theorem splitParts_not_overlapping (ex : AvailabilitySlot) (d : SlotData)
    (invId idH idT : String) (s e : Nat)
    (hds : d.startTime = some s) (hde : d.endTime = some e) (hse : s ≤ e) :
    (splitParts ex d invId idH idT).Pairwise
      (fun a b => ¬ overlaps a b) := by
  by_cases hh : ex.startTime < s <;> by_cases ht : e < ex.endTime <;>
    simp [splitParts, applySlotData, overlaps, hds, hde, hh, ht,
      List.pairwise_cons] <;>
    omega

/-- A rebook/resize whose new range is contained in the old one
(non-inverted) and which keeps the slot's owner and date preserves
pairwise disjointness — whether it takes the split branch or the
equal-range in-place update. -/
theorem handleSaveSlot_edit_preserves_disjoint
    (slots : List AvailabilitySlot) (d : SlotData)
    (invId idA idB sid : String) (ex : AvailabilitySlot) (s e : Nat)
    (hdisj : pairwiseDisjoint slots)
    (huniq : slots.Pairwise (fun x y => x.id ≠ y.id))
    (hdid : d.id = some sid)
    (hfind : slots.find? (fun x => x.id == sid) = some ex)
    (hds : d.startTime = some s) (hde : d.endTime = some e)
    (hS : ex.startTime ≤ s) (hE : e ≤ ex.endTime) (hse : s ≤ e)
    (hinv : invId = ex.interviewerId)
    (hdate : d.date = none ∨ d.date = some ex.date) :
    pairwiseDisjoint (handleSaveSlot slots d invId idA idB) := by
  have hdate' : d.date.getD ex.date = ex.date := by
    rcases hdate with h | h <;> simp [h]
  by_cases hstrict : ex.startTime < s ∨ e < ex.endTime
  · -- the split branch
    simp only [handleSaveSlot, hdid, hfind]
    rw [if_pos (by rw [hds, hde]; simpa using ⟨hS, hE, hstrict⟩)]
    unfold pairwiseDisjoint
    rw [List.pairwise_append]
    refine ⟨hdisj.sublist (List.filter_sublist _),
      splitParts_not_overlapping ex d invId idA idB s e hds hde hse, ?_⟩
    intro o ho p hp
    exact not_overlaps_of_containedIn o p ex
      (splitParts_containedIn ex d invId idA idB s e hds hde hS hE hse hinv
        hdate' p hp)
      (not_overlaps_find_of_mem_filter slots sid ex o hfind hdisj ho)
  · -- equal range: the in-place normal update
    simp only [handleSaveSlot, hdid, hfind]
    rw [if_neg (by rw [hds, hde]; simp; omega)]
    apply pairwiseDisjoint_map_replace slots sid ex _ hfind huniq hdisj
    intro o hno
    refine not_overlaps_of_containedIn o _ ex ⟨?_, ?_, ?_, ?_⟩ hno
    · simp [applySlotData, hinv]
    · simp [applySlotData, hdate']
    · simp [applySlotData, hds]
      omega
    · simp [applySlotData, hde]
      omega

/-- C1, counterexample.  Starting from the disjoint set holding the
09:00-12:00 slot of owner `X`, creating another 09:00-12:00 slot for the
same owner and date goes through without any overlap check and leaves two
fully overlapping slots — creating a new slot CAN introduce an overlap. -/
theorem create_introduces_overlap :
    pairwiseDisjoint [slotFreeA] ∧
    ¬ pairwiseDisjoint (handleSaveSlot [slotFreeA]
        { id := none, date := some "2025-03-01", startTime := some 540,
          endTime := some 720, isBooked := false } "X" "B" "C") := by
  constructor <;> decide

/-- C1, amended: starting from a per-(owner, date) pairwise-disjoint slot
collection with distinct slot ids, (a) every delete whose target is
either absent or a well-formed range (`targetStart ≤ targetEnd`)
preserves disjointness, and (b) every rebook/resize whose new range is
contained in the edited slot's old range (non-inverted) and which keeps
the slot's owner and date preserves disjointness.  Creating a new slot
performs no overlap check and can break the invariant, as can an
owner/date-changing or non-contained resize. -/
theorem delete_and_contained_resize_preserve_disjointness :
    (∀ (slots : List AvailabilitySlot) (id : String) (ts te : Option Nat)
      (fid : String),
      pairwiseDisjoint slots →
      slots.Pairwise (fun x y => x.id ≠ y.id) →
      ((ts = none ∧ te = none) ∨
        ∃ a b, ts = some a ∧ te = some b ∧ a ≤ b) →
      pairwiseDisjoint (handleDeleteSlot slots id ts te fid).slots) ∧
    (∀ (slots : List AvailabilitySlot) (d : SlotData)
      (invId idA idB sid : String) (ex : AvailabilitySlot) (s e : Nat),
      pairwiseDisjoint slots →
      slots.Pairwise (fun x y => x.id ≠ y.id) →
      d.id = some sid →
      slots.find? (fun x => x.id == sid) = some ex →
      d.startTime = some s → d.endTime = some e →
      ex.startTime ≤ s → e ≤ ex.endTime → s ≤ e →
      invId = ex.interviewerId →
      (d.date = none ∨ d.date = some ex.date) →
      pairwiseDisjoint (handleSaveSlot slots d invId idA idB)) :=
  ⟨fun slots id ts te fid h1 h2 h3 =>
    handleDeleteSlot_preserves_disjoint slots id ts te fid h1 h2 h3,
   fun slots d invId idA idB sid ex s e h1 h2 h3 h4 h5 h6 h7 h8 h9 h10 h11 =>
    handleSaveSlot_edit_preserves_disjoint slots d invId idA idB sid ex s e
      h1 h2 h3 h4 h5 h6 h7 h8 h9 h10 h11⟩

/-- C1, witness: the middle-delete of 10:00-10:30 from the 09:00-12:00
slot keeps the collection disjoint, and so does booking that sub-range
through the split path (same owner, same date). -/
theorem disjointness_preservation_witness :
    pairwiseDisjoint (handleDeleteSlot [slotFreeA] "A" (some 600) (some 630)
      "F").slots ∧
    pairwiseDisjoint (handleSaveSlot [slotFreeA]
      { id := some "A", date := some "2025-03-01", startTime := some 600,
        endTime := some 630, isBooked := true } "X" "H" "T") :=
  ⟨delete_and_contained_resize_preserve_disjointness.1 [slotFreeA] "A"
      (some 600) (some 630) "F" (by decide) (by decide)
      (Or.inr ⟨600, 630, rfl, rfl, by decide⟩),
   delete_and_contained_resize_preserve_disjointness.2 [slotFreeA]
      { id := some "A", date := some "2025-03-01", startTime := some 600,
        endTime := some 630, isBooked := true } "X" "H" "T" "A" slotFreeA
      600 630 (by decide) (by decide) rfl (by rfl) rfl rfl (by decide)
      (by decide) (by decide) (by rfl) (Or.inr (by rfl))⟩
